import Mathlib

/-!
Shallow embedding of the two stateful utilities of the mirror-mirror backend:
the fixed-window rate limiter `rateLimitOk` and the opener rotator
`pickNonRepeatingOpener`.  Impure inputs of the source (the clock `Date.now()`
and the stream of `Math.random()` draws) are modelled as explicit parameters:
`now : Int` and an index stream `draws : Nat → Nat` (the index produced by the
i-th call to the random source inside one invocation).  The process-wide maps
become explicit function-typed states threaded through the calls.
-/

namespace MirrorMirror

/-- One entry of the rate-limit `bucket` map: `{ count, resetAt }`. -/
structure RLEntry where
  count : Int
  resetAt : Int
deriving Repr, DecidableEq

/-- The `{ ok, remaining }` record returned by `rateLimitOk`. -/
structure RLResult where
  ok : Bool
  remaining : Int
deriving Repr, DecidableEq

/-- The process-wide `bucket` map, as a function from keys to optional entries. -/
abbrev Bucket := String → Option RLEntry

/-- Embedding of `rateLimitOk(key, limit, windowMs)` from `src/api/affirmation.ts`
with the map `bucket` and the clock `now` made explicit; returns the result record
together with the updated map. -/
def rateLimitOk (bucket : Bucket) (now : Int) (key : String)
    (limit windowMs : Int) : RLResult × Bucket :=
  match bucket key with
  | none =>
      (⟨true, limit - 1⟩,
        fun k => if k = key then some ⟨1, now + windowMs⟩ else bucket k)
  | some cur =>
      if now > cur.resetAt then
        (⟨true, limit - 1⟩,
          fun k => if k = key then some ⟨1, now + windowMs⟩ else bucket k)
      else if cur.count ≥ limit then
        (⟨false, 0⟩, bucket)
      else
        (⟨true, limit - (cur.count + 1)⟩,
          fun k => if k = key then some ⟨cur.count + 1, cur.resetAt⟩ else bucket k)

/-- A sequence of calls to `rateLimitOk` with a fixed key, limit and window,
one call per timestamp in the list, threading the map through. -/
def rlRun (bucket : Bucket) (key : String) (limit windowMs : Int) :
    List Int → List RLResult
  | [] => []
  | t :: ts =>
      (rateLimitOk bucket t key limit windowMs).1 ::
        rlRun (rateLimitOk bucket t key limit windowMs).2 key limit windowMs ts

/-- The result pattern the spec predicts for an in-window call sequence whose
stored count starts at `c`: allowed with decreasing remaining until the count
reaches `limit`, denied with remaining 0 afterwards. -/
def rlExpectedFrom (limit c : Int) (n : Nat) : List RLResult :=
  (List.range n).map
    (fun i : Nat =>
      if c + (i : Int) < limit then ⟨true, limit - (c + (i : Int) + 1)⟩
      else ⟨false, 0⟩)

/-- One entry of the `OPENER_HISTORY` map: `{ items, resetAt }`. -/
structure OpenerEntry where
  items : List String
  resetAt : Int
deriving Repr, DecidableEq

/-- The process-wide `OPENER_HISTORY` map. -/
abbrev OpenerHistory := String → Option OpenerEntry

/-- The 24-hour window length `24 * 60 * 60 * 1000` used by the opener history. -/
def dayMs : Int := 24 * 60 * 60 * 1000

/-- The candidate produced by the i-th call to the random source:
`bank[Math.floor(Math.random() * bank.length)]`. -/
def drawCandidate (bank : List String) (draws : Nat → Nat) (i : Nat) : String :=
  bank.getD (draws i) ""

/-- The retry loop `for (let i = 0; i < 12; i++)`: with `fuel` attempts left and
the next random call being the i-th overall, return the first drawn candidate
that is not in `items`, or `none` if every attempt hits `items`. -/
def pickAttempt (bank : List String) (draws : Nat → Nat) (items : List String) :
    Nat → Nat → Option String
  | 0, _ => none
  | fuel + 1, i =>
      if drawCandidate bank draws i ∈ items then
        pickAttempt bank draws items fuel (i + 1)
      else
        some (drawCandidate bank draws i)

/-- The composite key `` `${ip}:${mode}` ``. -/
def openerKey (mode ip : String) : String := ip ++ ":" ++ mode

/-- The effective history entry used by a call: a fresh empty entry when the key
is absent or its `resetAt` has passed, the stored entry otherwise. -/
def openerState (hist : OpenerHistory) (now : Int) (key : String) : OpenerEntry :=
  match hist key with
  | none => ⟨[], now + dayMs⟩
  | some cur => if now > cur.resetAt then ⟨[], now + dayMs⟩ else cur

/-- Embedding of `pickNonRepeatingOpener(mode, ip, bank, keepLast)` from
`src/unnamed/part_000`, with the history map, the clock and the random stream
explicit; returns the chosen opener together with the updated map.  After the
12 retry attempts are exhausted the source draws once more (`draws 12`) and
accepts that candidate unconditionally. -/
def pickNonRepeatingOpener (hist : OpenerHistory) (now : Int) (mode ip : String)
    (bank : List String) (keepLast : Nat) (draws : Nat → Nat) :
    String × OpenerHistory :=
  let key := openerKey mode ip
  let state := openerState hist now key
  match pickAttempt bank draws state.items 12 0 with
  | some candidate =>
      (candidate,
        fun k =>
          if k = key then some ⟨(candidate :: state.items).take keepLast, state.resetAt⟩
          else hist k)
  | none =>
      (drawCandidate bank draws 12,
        fun k =>
          if k = key then
            some ⟨(drawCandidate bank draws 12 :: state.items).take keepLast, state.resetAt⟩
          else hist k)

/-! ### Branch lemmas for `rateLimitOk` -/

/-- Absent key: the entry is created with count 1 and the call is allowed. -/
theorem rateLimitOk_absent (bucket : Bucket) (now : Int) (key : String)
    (limit windowMs : Int) (h : bucket key = none) :
    rateLimitOk bucket now key limit windowMs =
      (⟨true, limit - 1⟩,
        fun k => if k = key then some ⟨1, now + windowMs⟩ else bucket k) := by
  unfold rateLimitOk
  rw [h]

/-- Expired entry: the entry is replaced with count 1 and the call is allowed. -/
theorem rateLimitOk_expired (bucket : Bucket) (now : Int) (key : String)
    (limit windowMs : Int) (e : RLEntry) (h : bucket key = some e)
    (hx : e.resetAt < now) :
    rateLimitOk bucket now key limit windowMs =
      (⟨true, limit - 1⟩,
        fun k => if k = key then some ⟨1, now + windowMs⟩ else bucket k) := by
  unfold rateLimitOk
  rw [h]
  simp [hx]

/-- Saturated entry inside the window: the call is denied and the map untouched. -/
theorem rateLimitOk_denied (bucket : Bucket) (now : Int) (key : String)
    (limit windowMs : Int) (e : RLEntry) (h : bucket key = some e)
    (hin : now ≤ e.resetAt) (hc : limit ≤ e.count) :
    rateLimitOk bucket now key limit windowMs = (⟨false, 0⟩, bucket) := by
  unfold rateLimitOk
  rw [h]
  simp [not_lt.mpr hin, hc]

/-- Unsaturated entry inside the window: the count is incremented and the call
allowed. -/
theorem rateLimitOk_allowed (bucket : Bucket) (now : Int) (key : String)
    (limit windowMs : Int) (e : RLEntry) (h : bucket key = some e)
    (hin : now ≤ e.resetAt) (hc : e.count < limit) :
    rateLimitOk bucket now key limit windowMs =
      (⟨true, limit - (e.count + 1)⟩,
        fun k => if k = key then some ⟨e.count + 1, e.resetAt⟩ else bucket k) := by
  unfold rateLimitOk
  rw [h]
  simp [not_lt.mpr hin, not_le.mpr hc]

/-- The stored entry of any key other than the called one is untouched. -/
theorem rateLimitOk_frame (bucket : Bucket) (now : Int) (key : String)
    (limit windowMs : Int) (k2 : String) (hne : k2 ≠ key) :
    (rateLimitOk bucket now key limit windowMs).2 k2 = bucket k2 := by
  unfold rateLimitOk
  cases hb : bucket key with
  | none => simp [hne]
  | some cur =>
      by_cases h1 : now > cur.resetAt
      · simp [h1, hne]
      · by_cases h2 : cur.count ≥ limit
        · simp [h1, h2]
        · simp [h1, h2, hne]

/-- The result of a call depends only on the stored entry of the called key. -/
theorem rateLimitOk_fst_local (b1 b2 : Bucket) (now : Int) (key : String)
    (limit windowMs : Int) (h : b1 key = b2 key) :
    (rateLimitOk b1 now key limit windowMs).1 =
      (rateLimitOk b2 now key limit windowMs).1 := by
  unfold rateLimitOk
  rw [h]
  cases hb : b2 key with
  | none => rfl
  | some cur =>
      by_cases h1 : now > cur.resetAt <;> by_cases h2 : cur.count ≥ limit <;>
        simp [h1, h2]

/-- Claim C4: whenever `rateLimitOk` is called for a key whose current
(unexpired) entry has `count ≥ limit`, it returns `ok = false` with
`remaining = 0` and the stored map is completely unchanged: the denied request
consumes no slot and every key's entry is identical before and after. -/
theorem claim4_denied_request_no_mutation (bucket : Bucket) (now : Int)
    (key : String) (limit windowMs : Int) (e : RLEntry) (h : bucket key = some e)
    (hin : now ≤ e.resetAt) (hc : limit ≤ e.count) :
    rateLimitOk bucket now key limit windowMs = (⟨false, 0⟩, bucket) :=
  rateLimitOk_denied bucket now key limit windowMs e h hin hc

/-- Witness for C4 at a concrete saturated bucket. -/
theorem claim4_witness :
    rateLimitOk (fun k => if k = "a" then some ⟨3, 100⟩ else none) 50 "a" 3 600000 =
      (⟨false, 0⟩, fun k => if k = "a" then some ⟨3, 100⟩ else none) :=
  claim4_denied_request_no_mutation (fun k => if k = "a" then some ⟨3, 100⟩ else none)
    50 "a" 3 600000 ⟨3, 100⟩ (by decide) (by decide) (by decide)

/-- Claim C5: when the key is absent or its stored window has expired,
`rateLimitOk` replaces the entry with count 1 and `resetAt = now + windowMs`,
returns allowed with `remaining = limit - 1`, and the whole call behaves
exactly as the same call on the bucket with the key erased (a first call
ever). -/
theorem claim5_fresh_window_reset (bucket : Bucket) (now : Int) (key : String)
    (limit windowMs : Int)
    (h : bucket key = none ∨ ∃ e, bucket key = some e ∧ e.resetAt < now) :
    rateLimitOk bucket now key limit windowMs =
      (⟨true, limit - 1⟩,
        fun k => if k = key then some ⟨1, now + windowMs⟩ else bucket k) ∧
    rateLimitOk bucket now key limit windowMs =
      rateLimitOk (fun k => if k = key then none else bucket k) now key limit windowMs := by
  have hmain : rateLimitOk bucket now key limit windowMs =
      (⟨true, limit - 1⟩,
        fun k => if k = key then some ⟨1, now + windowMs⟩ else bucket k) := by
    rcases h with h | ⟨e, he, hx⟩
    · exact rateLimitOk_absent bucket now key limit windowMs h
    · exact rateLimitOk_expired bucket now key limit windowMs e he hx
  have herased : rateLimitOk (fun k => if k = key then none else bucket k)
      now key limit windowMs =
      (⟨true, limit - 1⟩,
        fun k => if k = key then some ⟨1, now + windowMs⟩
          else (fun k2 => if k2 = key then none else bucket k2) k) :=
    rateLimitOk_absent _ now key limit windowMs (by simp)
  refine ⟨hmain, ?_⟩
  rw [hmain, herased]
  congr 1
  funext k
  by_cases hk : k = key <;> simp [hk]

/-- Witness for C5 at a concrete expired entry. -/
theorem claim5_witness :
    (rateLimitOk (fun k => if k = "a" then some ⟨5, 100⟩ else none) 101 "a" 4 50).1 =
      ⟨true, 3⟩ ∧
    (rateLimitOk (fun k => if k = "a" then some ⟨5, 100⟩ else none) 101 "a" 4 50).2 "a" =
      some ⟨1, 151⟩ := by
  have h := claim5_fresh_window_reset
      (fun k => if k = "a" then some ⟨5, 100⟩ else none) 101 "a" 4 50
      (Or.inr ⟨⟨5, 100⟩, by decide, by norm_num⟩)
  constructor
  · rw [h.1]
    norm_num
  · rw [h.1]
    norm_num

/-- Claim C6: a call with key `k` never modifies the stored entry of any other
key, and the result of a subsequent call on any other key is the same whether
or not the call on `k` happened. -/
theorem claim6_key_isolation (bucket : Bucket) (now : Int) (key : String)
    (limit windowMs : Int) (k2 : String) (hne : k2 ≠ key) :
    (rateLimitOk bucket now key limit windowMs).2 k2 = bucket k2 ∧
    ∀ now2 limit2 windowMs2,
      (rateLimitOk (rateLimitOk bucket now key limit windowMs).2
          now2 k2 limit2 windowMs2).1 =
        (rateLimitOk bucket now2 k2 limit2 windowMs2).1 := by
  refine ⟨rateLimitOk_frame bucket now key limit windowMs k2 hne,
    fun now2 limit2 windowMs2 => ?_⟩
  exact rateLimitOk_fst_local _ bucket now2 k2 limit2 windowMs2
    (rateLimitOk_frame bucket now key limit windowMs k2 hne)

/-- Witness for C6: exhausting key "a" leaves key "b" untouched. -/
theorem claim6_witness :
    (rateLimitOk (fun k => if k = "a" then some ⟨3, 100⟩ else none) 0 "a" 3 100).2 "b" =
      (fun k => if k = "a" then some ⟨3, 100⟩ else none) "b" ∧
    (rateLimitOk (rateLimitOk (fun k => if k = "a" then some ⟨3, 100⟩ else none)
        0 "a" 3 100).2 5 "b" 7 200).1 =
      (rateLimitOk (fun k => if k = "a" then some ⟨3, 100⟩ else none) 5 "b" 7 200).1 := by
  have h := claim6_key_isolation (fun k => if k = "a" then some ⟨3, 100⟩ else none)
      0 "a" 3 100 "b" (by decide)
  exact ⟨h.1, h.2 5 7 200⟩

/-- Claim C10: on the first call of a window (absent or expired key) the
request is allowed regardless of the limit, with `remaining = limit - 1`,
which is negative when `limit ≤ 0`; in that case the very next in-window call
for the key is already denied, so the limit is only enforced from the second
call of a window onward. -/
theorem claim10_first_call_ignores_limit (bucket : Bucket) (now : Int)
    (key : String) (limit windowMs : Int)
    (h : bucket key = none ∨ ∃ e, bucket key = some e ∧ e.resetAt < now) :
    (rateLimitOk bucket now key limit windowMs).1.ok = true ∧
    (rateLimitOk bucket now key limit windowMs).1.remaining = limit - 1 ∧
    (limit ≤ 0 →
      (rateLimitOk bucket now key limit windowMs).1.remaining < 0 ∧
      ∀ t, t ≤ now + windowMs →
        (rateLimitOk (rateLimitOk bucket now key limit windowMs).2
            t key limit windowMs).1.ok = false) := by
  have hmain : rateLimitOk bucket now key limit windowMs =
      (⟨true, limit - 1⟩,
        fun k => if k = key then some ⟨1, now + windowMs⟩ else bucket k) := by
    rcases h with h | ⟨e, he, hx⟩
    · exact rateLimitOk_absent bucket now key limit windowMs h
    · exact rateLimitOk_expired bucket now key limit windowMs e he hx
  rw [hmain]
  refine ⟨rfl, rfl, fun hlim => ⟨by show limit - 1 < 0; omega, fun t ht => ?_⟩⟩
  rw [rateLimitOk_denied _ t key limit windowMs ⟨1, now + windowMs⟩ (by simp) ht
    (by show limit ≤ 1; omega)]

/-- Witness for C10 with `limit = 0`: the first call is allowed with
remaining −1, the second in-window call is denied. -/
theorem claim10_witness :
    (rateLimitOk (fun _ => none) 7 "k" 0 10).1.ok = true ∧
    (rateLimitOk (fun _ => none) 7 "k" 0 10).1.remaining = -1 ∧
    (rateLimitOk (rateLimitOk (fun _ => none) 7 "k" 0 10).2 17 "k" 0 10).1.ok = false := by
  have h := claim10_first_call_ignores_limit (fun _ => none) 7 "k" 0 10 (Or.inl rfl)
  exact ⟨h.1, h.2.1.trans (by norm_num), (h.2.2 (by norm_num)).2 17 (by norm_num)⟩

/-! ### The in-window call sequence (claim C1) -/

/-- Unfolding lemma for the expected result pattern. -/
theorem rlExpectedFrom_succ (limit c : Int) (n : Nat) :
    rlExpectedFrom limit c (n + 1) =
      (if c < limit then (⟨true, limit - (c + 1)⟩ : RLResult) else ⟨false, 0⟩) ::
        rlExpectedFrom limit (c + 1) n := by
  unfold rlExpectedFrom
  rw [List.range_succ_eq_map, List.map_cons, List.map_map]
  congr 1
  · norm_num
  · apply List.map_congr_left
    intro i hi
    simp only [Function.comp_apply]
    push_cast
    by_cases hc : c + 1 + (i : Int) < limit
    · rw [if_pos (by omega), if_pos hc]
      congr 1
      ring
    · rw [if_neg (by omega), if_neg hc]

/-- Once the stored count is saturated the expected pattern no longer depends
on the exact count. -/
theorem rlExpectedFrom_congr_ge (limit c d : Int) (n : Nat)
    (hc : limit ≤ c) (hd : limit ≤ d) :
    rlExpectedFrom limit c n = rlExpectedFrom limit d n := by
  unfold rlExpectedFrom
  apply List.map_congr_left
  intro i hi
  rw [if_neg (by omega), if_neg (by omega)]

/-- A run of in-window calls starting from a live entry with count `c`
produces exactly the expected allow/deny pattern. -/
theorem rlRun_inWindow (key : String) (limit windowMs R : Int) (ts : List Int) :
    ∀ (bucket : Bucket) (c : Int), bucket key = some ⟨c, R⟩ →
      (∀ t ∈ ts, t ≤ R) →
      rlRun bucket key limit windowMs ts = rlExpectedFrom limit c ts.length := by
  induction ts with
  | nil => intro bucket c hb hts; rfl
  | cons t ts ih =>
      intro bucket c hb hts
      have ht : t ≤ R := hts t (List.mem_cons_self t ts)
      have hts2 : ∀ u ∈ ts, u ≤ R := fun u hu => hts u (List.mem_cons_of_mem t hu)
      rw [List.length_cons, rlExpectedFrom_succ]
      show (rateLimitOk bucket t key limit windowMs).1 ::
          rlRun (rateLimitOk bucket t key limit windowMs).2 key limit windowMs ts = _
      by_cases hcl : limit ≤ c
      · rw [rateLimitOk_denied bucket t key limit windowMs ⟨c, R⟩ hb ht hcl]
        dsimp only
        rw [if_neg (not_lt.mpr hcl)]
        congr 1
        rw [ih bucket c hb hts2]
        exact rlExpectedFrom_congr_ge limit c (c + 1) ts.length hcl (by omega)
      · push_neg at hcl
        rw [rateLimitOk_allowed bucket t key limit windowMs ⟨c, R⟩ hb ht hcl]
        dsimp only
        rw [if_pos hcl]
        congr 1
        exact ih _ (c + 1) (by simp) hts2

/-- Claim C1: starting from a bucket with no entry for the key, a sequence of
calls with fixed `limit > 0` and `windowMs > 0`, all made while the window
never expires (every later call time is at most the stored `resetAt`),
produces allowed results with remaining `limit-1, limit-2, …, 0` for the first
`limit` calls and denied results with remaining 0 afterwards. -/
theorem claim1_rate_limit_window_sequence (bucket : Bucket) (key : String)
    (limit windowMs t0 : Int) (ts : List Int)
    (h0 : bucket key = none) (hL : 0 < limit) (hw : 0 < windowMs)
    (hts : ∀ t ∈ ts, t ≤ t0 + windowMs) :
    rlRun bucket key limit windowMs (t0 :: ts) =
      rlExpectedFrom limit 0 (ts.length + 1) := by
  rw [rlExpectedFrom_succ]
  show (rateLimitOk bucket t0 key limit windowMs).1 ::
      rlRun (rateLimitOk bucket t0 key limit windowMs).2 key limit windowMs ts = _
  rw [rateLimitOk_absent bucket t0 key limit windowMs h0]
  dsimp only
  rw [if_pos hL]
  rw [rlRun_inWindow key limit windowMs (t0 + windowMs) ts _ 1 (by simp) hts]
  norm_num

/-- Witness for C1: the spec's concrete scenario, limit 3, four calls at the
same instant. -/
theorem claim1_witness :
    rlRun (fun _ => none) "k" 3 600000 [0, 0, 0, 0] =
      [⟨true, 2⟩, ⟨true, 1⟩, ⟨true, 0⟩, ⟨false, 0⟩] := by
  have h := claim1_rate_limit_window_sequence (fun _ => none) "k" 3 600000 0 [0, 0, 0]
      rfl (by norm_num) (by norm_num) (by decide)
  exact h.trans (by decide)

/-! ### Lemmas about the opener rotator -/

/-- An in-range `getD` lookup is a member of the list. -/
theorem getD_mem_of_lt (l : List String) (n : Nat) (d : String)
    (h : n < l.length) : l.getD n d ∈ l := by
  induction l generalizing n with
  | nil => simp at h
  | cons a l ih =>
      cases n with
      | zero => simp
      | succ n =>
          rw [List.getD_cons_succ]
          exact List.mem_cons_of_mem a (ih n (by simpa using h))

/-- A successful retry loop returns a candidate outside the recency list that
was produced by one of its draws. -/
theorem pickAttempt_some (bank : List String) (draws : Nat → Nat)
    (items : List String) :
    ∀ (fuel i : Nat) (c : String), pickAttempt bank draws items fuel i = some c →
      c ∉ items ∧ ∃ j, i ≤ j ∧ j < i + fuel ∧ c = drawCandidate bank draws j := by
  intro fuel
  induction fuel with
  | zero => intro i c h; simp [pickAttempt] at h
  | succ fuel ih =>
      intro i c h
      simp only [pickAttempt] at h
      by_cases hm : drawCandidate bank draws i ∈ items
      · rw [if_pos hm] at h
        obtain ⟨hc, j, hj1, hj2, hj3⟩ := ih (i + 1) c h
        exact ⟨hc, j, by omega, by omega, hj3⟩
      · rw [if_neg hm] at h
        obtain rfl := Option.some.inj h
        exact ⟨hm, i, Nat.le_refl i, by omega, rfl⟩

/-- When every draw of the retry loop hits the recency list, the loop fails. -/
theorem pickAttempt_none (bank : List String) (draws : Nat → Nat)
    (items : List String) :
    ∀ (fuel i : Nat), (∀ j, j < fuel → drawCandidate bank draws (i + j) ∈ items) →
      pickAttempt bank draws items fuel i = none := by
  intro fuel
  induction fuel with
  | zero => intro i h; rfl
  | succ fuel ih =>
      intro i h
      have h0 : drawCandidate bank draws i ∈ items := by
        simpa using h 0 (Nat.succ_pos fuel)
      simp only [pickAttempt, if_pos h0]
      refine ih (i + 1) (fun j hj => ?_)
      have hx := h (j + 1) (by omega)
      have heq : i + (j + 1) = i + 1 + j := by omega
      rwa [heq] at hx

/-- When some draw of the retry loop escapes the recency list, the loop
succeeds. -/
theorem pickAttempt_isSome (bank : List String) (draws : Nat → Nat)
    (items : List String) :
    ∀ (fuel i : Nat),
      (∃ j, j < fuel ∧ drawCandidate bank draws (i + j) ∉ items) →
      ∃ c, pickAttempt bank draws items fuel i = some c := by
  intro fuel
  induction fuel with
  | zero =>
      intro i hex
      obtain ⟨j, hj, _⟩ := hex
      omega
  | succ fuel ih =>
      intro i hex
      by_cases hm : drawCandidate bank draws i ∈ items
      · obtain ⟨j, hj, hmem⟩ := hex
        have hj0 : j ≠ 0 := by
          rintro rfl
          rw [Nat.add_zero] at hmem
          exact hmem hm
        obtain ⟨c, hc⟩ := ih (i + 1) ⟨j - 1, by omega, by
          have heq : i + 1 + (j - 1) = i + j := by omega
          rwa [heq]⟩
        exact ⟨c, by simp only [pickAttempt, if_pos hm]; exact hc⟩
      · exact ⟨drawCandidate bank draws i, by simp only [pickAttempt, if_neg hm]⟩

/-- A live entry (present and unexpired) is used as the effective state. -/
theorem openerState_live (hist : OpenerHistory) (now : Int) (key : String)
    (e : OpenerEntry) (h : hist key = some e) (hin : now ≤ e.resetAt) :
    openerState hist now key = e := by
  unfold openerState
  rw [h]
  simp [not_lt.mpr hin]

/-- An expired entry is replaced by a fresh empty one. -/
theorem openerState_expired (hist : OpenerHistory) (now : Int) (key : String)
    (e : OpenerEntry) (h : hist key = some e) (hx : e.resetAt < now) :
    openerState hist now key = ⟨[], now + dayMs⟩ := by
  unfold openerState
  rw [h]
  simp [hx]

/-- Claim C7: for every non-empty bank and every history state, with draws in
the bank's index range, `pickNonRepeatingOpener` is total (the retry loop is a
bounded 12-step recursion) and returns an element of the given bank. -/
theorem claim7_opener_total_in_bank (hist : OpenerHistory) (now : Int)
    (mode ip : String) (bank : List String) (keepLast : Nat) (draws : Nat → Nat)
    (hbank : bank ≠ []) (hdraws : ∀ j, draws j < bank.length) :
    (pickNonRepeatingOpener hist now mode ip bank keepLast draws).1 ∈ bank := by
  unfold pickNonRepeatingOpener
  cases hp : pickAttempt bank draws
      (openerState hist now (openerKey mode ip)).items 12 0 with
  | none =>
      dsimp only
      rw [hp]
      exact getD_mem_of_lt bank (draws 12) "" (hdraws 12)
  | some c =>
      dsimp only
      rw [hp]
      obtain ⟨-, j, -, -, rfl⟩ := pickAttempt_some bank draws _ 12 0 c hp
      exact getD_mem_of_lt bank (draws j) "" (hdraws j)

/-- Witness for C7 on a singleton bank. -/
theorem claim7_witness :
    (pickNonRepeatingOpener (fun _ => none) 0 "morning" "x" ["A"] 20
      (fun _ => 0)).1 ∈ ["A"] :=
  claim7_opener_total_in_bank (fun _ => none) 0 "morning" "x" ["A"] 20 (fun _ => 0)
    (by decide) (fun j => Nat.one_pos)

/-- Claim C8: a call preserves the invariant that every stored recency list
has length at most `keepLast`: the accepted item is prepended and the list
truncated to `keepLast` entries, and all other keys are untouched. -/
theorem claim8_history_cap_invariant (hist : OpenerHistory) (now : Int)
    (mode ip : String) (bank : List String) (keepLast : Nat) (draws : Nat → Nat)
    (hinv : ∀ k e, hist k = some e → e.items.length ≤ keepLast) :
    ∀ k e, (pickNonRepeatingOpener hist now mode ip bank keepLast draws).2 k = some e →
      e.items.length ≤ keepLast := by
  intro k e he
  unfold pickNonRepeatingOpener at he
  dsimp only at he
  cases hp : pickAttempt bank draws
      (openerState hist now (openerKey mode ip)).items 12 0 with
  | none =>
      rw [hp] at he
      dsimp only at he
      by_cases hk : k = openerKey mode ip
      · rw [if_pos hk] at he
        obtain rfl := Option.some.inj he
        simpa using Nat.min_le_left keepLast _
      · rw [if_neg hk] at he
        exact hinv k e he
  | some c =>
      rw [hp] at he
      dsimp only at he
      by_cases hk : k = openerKey mode ip
      · rw [if_pos hk] at he
        obtain rfl := Option.some.inj he
        simpa using Nat.min_le_left keepLast _
      · rw [if_neg hk] at he
        exact hinv k e he

/-- Witness for C8 with cap 1: the stored list after a call has length 1. -/
theorem claim8_witness :
    (⟨["A"], (86400000 : Int)⟩ : OpenerEntry).items.length ≤ 1 :=
  claim8_history_cap_invariant (fun _ => none) 0 "morning" "x" ["A", "B"] 1
    (fun _ => 0) (fun k e he => Option.noConfusion he) "x:morning"
    ⟨["A"], 86400000⟩ (by decide)

/-- Claim C9: when a key's stored `resetAt` has passed, the call proceeds from
a fresh empty recency list with `resetAt` 24 hours from now: the first draw is
accepted unconditionally (so an item served just before expiry may be served
again), and the new entry holds that item and the new `resetAt`. -/
theorem claim9_expired_history_reset (hist : OpenerHistory) (now : Int)
    (mode ip : String) (bank : List String) (keepLast : Nat) (draws : Nat → Nat)
    (e : OpenerEntry) (h : hist (openerKey mode ip) = some e)
    (hx : e.resetAt < now) :
    (pickNonRepeatingOpener hist now mode ip bank keepLast draws).1 =
      drawCandidate bank draws 0 ∧
    (pickNonRepeatingOpener hist now mode ip bank keepLast draws).2
        (openerKey mode ip) =
      some ⟨(drawCandidate bank draws 0 :: []).take keepLast, now + dayMs⟩ := by
  have hstate : openerState hist now (openerKey mode ip) = ⟨[], now + dayMs⟩ :=
    openerState_expired hist now (openerKey mode ip) e h hx
  have hp : pickAttempt bank draws ([] : List String) 12 0 =
      some (drawCandidate bank draws 0) := by
    simp [pickAttempt]
  unfold pickNonRepeatingOpener
  dsimp only
  rw [hstate]
  dsimp only
  rw [hp]
  exact ⟨rfl, by simp⟩

/-- Witness for C9: the key expired at 10, the call at 11 re-serves "A" even
though "A" is the most recently served item. -/
theorem claim9_witness :
    (pickNonRepeatingOpener
        (fun k => if k = "x:morning" then some ⟨["A"], 10⟩ else none)
        11 "morning" "x" ["A", "B"] 20 (fun _ => 0)).1 = "A" ∧
    (pickNonRepeatingOpener
        (fun k => if k = "x:morning" then some ⟨["A"], 10⟩ else none)
        11 "morning" "x" ["A", "B"] 20 (fun _ => 0)).2 (openerKey "morning" "x") =
      some ⟨["A"], 11 + dayMs⟩ ∧
    "A" ∈ ["A"] := by
  have h := claim9_expired_history_reset
      (fun k => if k = "x:morning" then some ⟨["A"], 10⟩ else none)
      11 "morning" "x" ["A", "B"] 20 (fun _ => 0) ⟨["A"], 10⟩ (by decide) (by norm_num)
  exact ⟨h.1.trans (by decide), h.2.trans (by decide), by decide⟩

/-! ### Claims C2 and C3: the exhausted retry budget -/

/-- Counterexample to claim C2 as stated: with history `["A","B"]` and draws
that pick index 0 on the 12 retry attempts and index 1 afterwards, all 12
retries are exhausted, the candidate drawn on the final retry attempt is "A",
yet the function returns "B" — a fresh 13th draw, not the last retry's
candidate. -/
theorem claim2_counterexample :
    pickAttempt ["A", "B"] (fun i => if i < 12 then 0 else 1) ["A", "B"] 12 0 =
      none ∧
    drawCandidate ["A", "B"] (fun i => if i < 12 then 0 else 1) 11 = "A" ∧
    (pickNonRepeatingOpener
        (fun k => if k = "ip:morning" then some ⟨["A", "B"], 1000⟩ else none)
        500 "morning" "ip" ["A", "B"] 20 (fun i => if i < 12 then 0 else 1)).1 =
      "B" ∧
    ("B" : String) ≠ "A" := by
  refine ⟨by decide, by decide, by decide, by decide⟩

/-- Claim C2 (amended): if all 12 retry attempts are exhausted (every one of
the 12 drawn candidates is in the key's recency list), the function draws one
further candidate — the 13th draw — and accepts it unconditionally: that fresh
draw is the string prepended to the history and returned. -/
theorem claim2_fallback_is_new_draw (hist : OpenerHistory) (now : Int)
    (mode ip : String) (bank : List String) (keepLast : Nat) (draws : Nat → Nat)
    (e : OpenerEntry) (h : hist (openerKey mode ip) = some e)
    (hin : now ≤ e.resetAt)
    (hall : ∀ j, j < 12 → drawCandidate bank draws j ∈ e.items) :
    (pickNonRepeatingOpener hist now mode ip bank keepLast draws).1 =
      drawCandidate bank draws 12 ∧
    (pickNonRepeatingOpener hist now mode ip bank keepLast draws).2
        (openerKey mode ip) =
      some ⟨(drawCandidate bank draws 12 :: e.items).take keepLast, e.resetAt⟩ := by
  have hstate : openerState hist now (openerKey mode ip) = e :=
    openerState_live hist now (openerKey mode ip) e h hin
  have hp : pickAttempt bank draws e.items 12 0 = none :=
    pickAttempt_none bank draws e.items 12 0 (fun j hj => by simpa using hall j hj)
  unfold pickNonRepeatingOpener
  dsimp only
  rw [hstate, hp]
  exact ⟨rfl, by simp⟩

/-- Witness for the amended C2: a singleton bank already in the history makes
every retry fail; the fallback draw "A" is accepted and prepended anyway. -/
theorem claim2_witness :
    (pickNonRepeatingOpener
        (fun k => if k = "x:morning" then some ⟨["A"], 100⟩ else none)
        50 "morning" "x" ["A"] 20 (fun _ => 0)).1 = "A" ∧
    (pickNonRepeatingOpener
        (fun k => if k = "x:morning" then some ⟨["A"], 100⟩ else none)
        50 "morning" "x" ["A"] 20 (fun _ => 0)).2 (openerKey "morning" "x") =
      some ⟨["A", "A"], 100⟩ := by
  have h := claim2_fallback_is_new_draw
      (fun k => if k = "x:morning" then some ⟨["A"], 100⟩ else none)
      50 "morning" "x" ["A"] 20 (fun _ => 0) ⟨["A"], 100⟩ (by decide) (by norm_num)
      (fun j hj => by show "A" ∈ ["A"]; decide)
  exact ⟨h.1.trans (by decide), h.2.trans (by decide)⟩

/-- The opener history after one warm-up call on bank `["A","B","C"]` with cap
2 (the call returns "A"). -/
def c3hist1 : OpenerHistory :=
  (pickNonRepeatingOpener (fun _ => none) 0 "morning" "x" ["A", "B", "C"] 2
    (fun _ => 0)).2

/-- The opener history after a second warm-up call (the call returns "B"), so
the recency list for the key is full at its cap. -/
def c3hist2 : OpenerHistory :=
  (pickNonRepeatingOpener c3hist1 1 "morning" "x" ["A", "B", "C"] 2
    (fun _ => 1)).2

/-- Counterexample to claim C3 as stated: bank `["A","B","C"]` is duplicate
free with size 3 ≥ historyCap + 1 = 3, the history is warmed up to its cap
with `["B","A"]` inside a single window, yet the draw sequence that always
picks index 0 exhausts the retry budget and the call returns "A", an item
among the 2 most recently returned ones. -/
theorem claim3_counterexample :
    c3hist2 "x:morning" = some ⟨["B", "A"], 86400000⟩ ∧
    (pickNonRepeatingOpener c3hist2 2 "morning" "x" ["A", "B", "C"] 2
        (fun _ => 0)).1 = "A" ∧
    "A" ∈ ["B", "A"] := by
  refine ⟨by decide, by decide, by decide⟩

/-- Claim C3 (amended): within an unexpired window, the returned item is never
identical to any item of the key's current recency list provided at least one
of the 12 retry draws selects an item outside that list; only when all 12
draws land inside the list can the unconditional fallback serve a repeat. -/
theorem claim3_no_repeat_when_a_draw_escapes (hist : OpenerHistory) (now : Int)
    (mode ip : String) (bank : List String) (keepLast : Nat) (draws : Nat → Nat)
    (e : OpenerEntry) (h : hist (openerKey mode ip) = some e)
    (hin : now ≤ e.resetAt)
    (hescape : ∃ j, j < 12 ∧ drawCandidate bank draws j ∉ e.items) :
    (pickNonRepeatingOpener hist now mode ip bank keepLast draws).1 ∉ e.items := by
  have hstate : openerState hist now (openerKey mode ip) = e :=
    openerState_live hist now (openerKey mode ip) e h hin
  obtain ⟨c, hc⟩ := pickAttempt_isSome bank draws e.items 12 0 (by simpa using hescape)
  obtain ⟨hnotmem, -⟩ := pickAttempt_some bank draws e.items 12 0 c hc
  unfold pickNonRepeatingOpener
  dsimp only
  rw [hstate, hc]
  exact hnotmem

/-- Witness for the amended C3: the fourth draw escapes the history, so the
returned item is not in the recency list. -/
theorem claim3_witness :
    (pickNonRepeatingOpener
        (fun k => if k = "x:morning" then some ⟨["A"], 100⟩ else none)
        50 "morning" "x" ["A", "B"] 20 (fun i => if i = 3 then 1 else 0)).1 ∉
      (["A"] : List String) :=
  claim3_no_repeat_when_a_draw_escapes
    (fun k => if k = "x:morning" then some ⟨["A"], 100⟩ else none)
    50 "morning" "x" ["A", "B"] 20 (fun i => if i = 3 then 1 else 0) ⟨["A"], 100⟩
    (by decide) (by norm_num) ⟨3, by norm_num, by decide⟩

end MirrorMirror
